import Mathlib

/-!
Verification of the audio transport/scheduling core of a live language-teaching
client.  The definitions below are a shallow embedding of the TypeScript
source: `src/utils/audioUtils.ts` (binary/text transport encoding, 16-bit PCM
frame codec, boxcar downsampler) and `src/services/liveSession.ts` (session
controller state machine and playback scheduler).  Machine-integer conversions
are made explicit (mod 2^16), JavaScript `Math.round x` is `⌊x + 1/2⌋`, and
sample values and clock times are modelled as exact rationals.  Byte buffers
are lists of naturals below 256; base64 strings are lists of characters.
-/

/-- ECMAScript ToInt16, applied on assignment into an `Int16Array`:
truncate toward zero, then wrap modulo 2^16 into [-32768, 32767]. -/
def toInt16 (x : ℚ) : ℤ :=
  let t : ℤ := if 0 ≤ x then ⌊x⌋ else ⌈x⌉
  let m := t % 65536
  if m < 32768 then m else m - 65536

/-- JavaScript `Math.round` on the nonnegative arguments used by this code. -/
def jsRound (x : ℚ) : ℤ := ⌊x + 1/2⌋

/-- The standard base64 alphabet used by `btoa`: index 0..63 to character. -/
def sextetToChar (n : ℕ) : Char :=
  if n < 26 then Char.ofNat (n + 65)
  else if n < 52 then Char.ofNat (n + 71)
  else if n < 62 then Char.ofNat (n - 4)
  else if n = 62 then '+'
  else '/'

/-- Inverse base64 alphabet lookup used by `atob`; `none` for characters
outside the alphabet (such characters make `atob` throw). -/
def charToSextet (c : Char) : Option ℕ :=
  let v := c.toNat
  if 65 ≤ v ∧ v ≤ 90 then some (v - 65)
  else if 97 ≤ v ∧ v ≤ 122 then some (v - 71)
  else if 48 ≤ v ∧ v ≤ 57 then some (v + 4)
  else if v = 43 then some 62
  else if v = 47 then some 63
  else none

/-- Body of `btoa` (called by `bytesToBase64`): encode byte triples into
quadruples of alphabet characters, padding a final 1- or 2-byte group
with `=`. -/
def encodeChunks : List ℕ → List Char
  | a :: b :: c :: rest =>
      sextetToChar (a / 4) :: sextetToChar (a % 4 * 16 + b / 16) ::
      sextetToChar (b % 16 * 4 + c / 64) :: sextetToChar (c % 64) ::
      encodeChunks rest
  | [a, b] => [sextetToChar (a / 4), sextetToChar (a % 4 * 16 + b / 16),
               sextetToChar (b % 16 * 4), '=']
  | [a] => [sextetToChar (a / 4), sextetToChar (a % 4 * 16), '=', '=']
  | [] => []

/-- `bytesToBase64` from `src/utils/audioUtils.ts`: build the binary string
byte by byte and apply `btoa`. -/
def bytesToBase64 (bytes : List ℕ) : List Char := encodeChunks bytes

/-- The alphabet characters of `encodeChunks` without the `=` padding;
`stripPad (encodeChunks l)` is shown to equal this. -/
def encodeSextets : List ℕ → List Char
  | a :: b :: c :: rest =>
      sextetToChar (a / 4) :: sextetToChar (a % 4 * 16 + b / 16) ::
      sextetToChar (b % 16 * 4 + c / 64) :: sextetToChar (c % 64) ::
      encodeSextets rest
  | [a, b] => [sextetToChar (a / 4), sextetToChar (a % 4 * 16 + b / 16),
               sextetToChar (b % 16 * 4)]
  | [a] => [sextetToChar (a / 4), sextetToChar (a % 4 * 16)]
  | [] => []

/-- ASCII whitespace stripped by the forgiving-base64 algorithm of `atob`. -/
def isB64Space (c : Char) : Bool :=
  c.toNat == 9 || c.toNat == 10 || c.toNat == 12 || c.toNat == 13 || c.toNat == 32

/-- Remove one trailing `=` if present. -/
def dropLastEq (s : List Char) : List Char :=
  if s.getLast? = some '=' then s.dropLast else s

/-- Remove up to two trailing `=` characters (forgiving-base64 padding step). -/
def stripPad (s : List Char) : List Char := dropLastEq (dropLastEq s)

/-- Decode a padding-free base64 character stream back to bytes, four
sextets to three bytes, with a trailing group of two or three sextets
yielding one or two bytes (extra low bits discarded, as `atob` does);
`none` on any character outside the alphabet or a trailing single sextet. -/
def decodeSextetChunks : List Char → Option (List ℕ)
  | [] => some []
  | [c0, c1] => do
      let s0 ← charToSextet c0
      let s1 ← charToSextet c1
      some [s0 * 4 + s1 / 16]
  | [c0, c1, c2] => do
      let s0 ← charToSextet c0
      let s1 ← charToSextet c1
      let s2 ← charToSextet c2
      some [s0 * 4 + s1 / 16, s1 % 16 * 16 + s2 / 4]
  | c0 :: c1 :: c2 :: c3 :: rest => do
      let s0 ← charToSextet c0
      let s1 ← charToSextet c1
      let s2 ← charToSextet c2
      let s3 ← charToSextet c3
      let tl ← decodeSextetChunks rest
      some ((s0 * 4 + s1 / 16) :: (s1 % 16 * 16 + s2 / 4) :: (s2 % 4 * 64 + s3) :: tl)
  | [_] => none

/-- `atob`, per the WHATWG forgiving-base64 decode algorithm: strip ASCII
whitespace, strip up to two trailing `=` when the length is a multiple of
four, reject a remainder of one, then decode; `none` models the thrown
`InvalidCharacterError`. -/
def atob (s : List Char) : Option (List ℕ) :=
  let t := s.filter (fun c => !(isB64Space c))
  let t2 := if t.length % 4 = 0 then stripPad t else t
  if t2.length % 4 = 1 then none else decodeSextetChunks t2

/-- `base64ToBytes` from `src/utils/audioUtils.ts`: `atob` then read the
binary string's char codes into a byte array. -/
def base64ToBytes (s : List Char) : Option (List ℕ) := atob s

/-- The clamp `Math.max(-1, Math.min(1, x))` in `createPcmBlob`. -/
def clamp1 (x : ℚ) : ℚ := max (-1) (min 1 x)

/-- One sample of `createPcmBlob`'s encoding loop:
`int16[i] = Math.max(-1, Math.min(1, data[i])) * 32768` stored into an
`Int16Array` (so converted by ToInt16). -/
def createPcmSample (x : ℚ) : ℤ := toInt16 (clamp1 x * 32768)

/-- Serialization of an `Int16Array`'s backing buffer as a `Uint8Array`:
two bytes per sample, little-endian two's complement. -/
def int16ToBytesLE : List ℤ → List ℕ
  | [] => []
  | i :: rest => (i % 65536).toNat % 256 :: (i % 65536).toNat / 256 ::
      int16ToBytesLE rest

/-- The wire blob produced for one outbound frame. -/
structure PcmBlob where
  data : List Char
  mimeType : String
deriving DecidableEq, Repr

/-- `createPcmBlob` from `src/utils/audioUtils.ts`. -/
def createPcmBlob (samples : List ℚ) : PcmBlob :=
  { data := bytesToBase64 (int16ToBytesLE (samples.map createPcmSample)),
    mimeType := "audio/pcm;rate=16000" }

/-- Reading a byte buffer as an `Int16Array` (little-endian two's
complement); `none` models the `RangeError` thrown when the byte length
is odd. -/
def bytesToInt16LE : List ℕ → Option (List ℤ)
  | [] => some []
  | lo :: hi :: rest => do
      let tl ← bytesToInt16LE rest
      let v := lo + hi * 256
      some ((if v < 32768 then (v : ℤ) else (v : ℤ) - 65536) :: tl)
  | [_] => none

/-- `decodeAudioData` from `src/utils/audioUtils.ts`, for the mono case used
by the session (numChannels = 1): reinterpret the bytes as 16-bit samples and
divide by 32768. -/
def decodeAudioData (data : List ℕ) : Option (List ℚ) :=
  Option.map (fun l => l.map (fun i : ℤ => (i : ℚ) / 32768)) (bytesToInt16LE data)

/-- The slice of `buffer` visited by the inner averaging loop of
`downsampleBuffer`: indices from `lo` while `i < hi && i < buffer.length`. -/
def windowSlice (buffer : List ℚ) (lo hi : ℕ) : List ℚ :=
  (buffer.drop lo).take (hi - lo)

/-- The `while (offsetResult < result.length)` loop of `downsampleBuffer`:
`fuel` counts the remaining output slots, `offsetResult` and `offsetBuffer`
are the loop variables. -/
def downsampleLoop (buffer : List ℚ) (r : ℚ) :
    ℕ → ℕ → ℕ → List ℚ
  | 0, _, _ => []
  | fuel + 1, offsetResult, offsetBuffer =>
      let nextOffsetBuffer := (jsRound (((offsetResult + 1 : ℕ) : ℚ) * r)).toNat
      let w := windowSlice buffer offsetBuffer nextOffsetBuffer
      (if 0 < w.length then w.sum / (w.length : ℚ) else 0) ::
        downsampleLoop buffer r fuel (offsetResult + 1) nextOffsetBuffer

/-- `downsampleBuffer` from `src/utils/audioUtils.ts`. -/
def downsampleBuffer (buffer : List ℚ) (inputSampleRate targetSampleRate : ℚ) :
    List ℚ :=
  if inputSampleRate = targetSampleRate then buffer
  else if inputSampleRate < targetSampleRate then buffer
  else
    let sampleRateRatio := inputSampleRate / targetSampleRate
    let newLength := (jsRound ((buffer.length : ℚ) / sampleRateRatio)).toNat
    downsampleLoop buffer sampleRateRatio newLength 0 0

/-- Connection states of `LiveSessionService` (`src/types`). -/
inductive ConnectionState
  | disconnected
  | connecting
  | connected
  | error
deriving DecidableEq, Repr

/-- One in-flight scheduled playback unit (an `AudioBufferSourceNode` in the
`audioSources` set): its assigned start time and its buffer duration. -/
structure ScheduledUnit where
  startTime : ℚ
  duration : ℚ
deriving DecidableEq, Repr

/-- The mutable state of a `LiveSessionService` instance, with device handles
abstracted to whether the underlying resource is currently open/attached, and
`surfacedErrors` counting invocations of the `onError` callback. -/
structure ServiceState where
  connectionState : ConnectionState
  inputCtxOpen : Bool
  outputCtxOpen : Bool
  inputSourceAttached : Bool
  processorAttached : Bool
  sessionLive : Bool
  nextStartTime : ℚ
  audioSources : List ScheduledUnit
  surfacedErrors : ℕ
deriving DecidableEq, Repr

/-- Field initializers of `LiveSessionService`. -/
def initState : ServiceState :=
  { connectionState := ConnectionState.disconnected
    inputCtxOpen := false
    outputCtxOpen := false
    inputSourceAttached := false
    processorAttached := false
    sessionLive := false
    nextStartTime := 0
    audioSources := []
    surfacedErrors := 0 }

/-- Lines 138-150 of `handleMessage`: assign a start time to one decoded
frame of the given duration at the given playback-clock time, advance the
cursor, and track the source.  Returns the new state and the assigned
start time. -/
def scheduleFrame (s : ServiceState) (duration clock : ℚ) :
    ServiceState × ℚ :=
  let start := max s.nextStartTime clock
  ({ s with nextStartTime := start + duration
            audioSources := s.audioSources ++ [⟨start, duration⟩] }, start)

/-- `stopAllAudio`: best-effort `stop()` on every in-flight source (the
try/catch makes stopping a finished unit a total no-op) and clear the set. -/
def stopAllAudio (s : ServiceState) : ServiceState :=
  { s with audioSources := [] }

/-- An inbound `LiveServerMessage`, flattened to the two fields the handler
reads: the optional base64 audio payload
(`serverContent?.modelTurn?.parts?.[0]?.inlineData?.data`) and the
`serverContent?.interrupted` flag. -/
structure ServerMessage where
  audioData : Option (List Char)
  interrupted : Bool
deriving DecidableEq, Repr

/-- The "Handle Audio Output" section of `handleMessage`: decode and
schedule an audio payload if present (guarded on the output context/node
being available).  A decode failure is an uncaught exception, modelled as
`Except.error`. -/
def audioStage (s : ServiceState) (msg : ServerMessage) (clock : ℚ) :
    Except String ServiceState :=
  match msg.audioData with
  | none => Except.ok s
  | some b64 =>
      if s.outputCtxOpen then
        match base64ToBytes b64 with
        | none => Except.error "InvalidCharacterError"
        | some bytes =>
            match decodeAudioData bytes with
            | none => Except.error "RangeError"
            | some samples =>
                Except.ok (scheduleFrame s ((samples.length : ℚ) / 24000) clock).1
      else Except.ok s

/-- `handleMessage` of `LiveSessionService`: the audio stage, then the
"Handle Interruption" section.  An exception in the audio stage aborts the
whole handler, including the interruption branch. -/
def handleMessage (s : ServiceState) (msg : ServerMessage) (clock : ℚ) :
    Except String ServiceState :=
  match audioStage s msg clock with
  | Except.error e => Except.error e
  | Except.ok s1 =>
      if msg.interrupted then
        Except.ok { stopAllAudio s1 with nextStartTime := 0 }
      else Except.ok s1

/-- How far `connect` gets before its try block throws: the two audio-context
constructions and the `getUserMedia` call can fail; on success the live
session is opened (its promise assigned) and the state stays CONNECTING
until the transport's `onopen` fires. -/
inductive ConnectOutcome
  | failInputCtx
  | failOutputCtx
  | micDenied
  | ok
deriving DecidableEq, Repr

/-- `connect` of `LiveSessionService`: a no-op while CONNECTED; otherwise go
to CONNECTING, create the audio contexts, request the microphone, and open
the transport.  Any throw is caught by the catch block, which surfaces the
error and sets ERROR -- without releasing anything already created. -/
def connect (s : ServiceState) (outcome : ConnectOutcome) : ServiceState :=
  if s.connectionState = ConnectionState.connected then s
  else
    let s1 := { s with connectionState := ConnectionState.connecting }
    match outcome with
    | ConnectOutcome.failInputCtx =>
        { s1 with surfacedErrors := s1.surfacedErrors + 1
                  connectionState := ConnectionState.error }
    | ConnectOutcome.failOutputCtx =>
        { s1 with inputCtxOpen := true
                  surfacedErrors := s1.surfacedErrors + 1
                  connectionState := ConnectionState.error }
    | ConnectOutcome.micDenied =>
        { s1 with inputCtxOpen := true
                  outputCtxOpen := true
                  surfacedErrors := s1.surfacedErrors + 1
                  connectionState := ConnectionState.error }
    | ConnectOutcome.ok =>
        { s1 with inputCtxOpen := true
                  outputCtxOpen := true
                  sessionLive := true }

/-- `disconnect` of `LiveSessionService`: a no-op from DISCONNECTED;
otherwise stop all audio, detach the capture nodes, close both audio
contexts, and transition to DISCONNECTED.  (It does not reset
`nextStartTime`.) -/
def disconnect (s : ServiceState) : ServiceState :=
  if s.connectionState = ConnectionState.disconnected then s
  else
    { s with audioSources := []
             processorAttached := false
             inputSourceAttached := false
             inputCtxOpen := false
             outputCtxOpen := false
             sessionLive := false
             connectionState := ConnectionState.disconnected }

/-- External events driving the controller: a connect request (with the
environment's outcome for the device/permission steps), the transport
callbacks of the live session, and a disconnect request. -/
inductive Event
  | connectReq (outcome : ConnectOutcome)
  | transportOpen
  | transportMessage (msg : ServerMessage) (clock : ℚ)
  | transportError
  | transportClose
  | disconnectReq

/-- One step of the session controller.  Transport callbacks belong to the
session opened by a successful `connect` and are ignored when none is live.
`onopen` sets CONNECTED and starts the capture pipeline; `onmessage` runs
`handleMessage`, with a thrown codec error escaping unhandled (no state
change); `onerror` surfaces the error and runs `disconnect`; `onclose` runs
`disconnect`. -/
def step (s : ServiceState) : Event → ServiceState
  | Event.connectReq o => connect s o
  | Event.transportOpen =>
      if s.sessionLive then
        { s with connectionState := ConnectionState.connected
                 inputSourceAttached := true
                 processorAttached := true }
      else s
  | Event.transportMessage msg clock =>
      if s.sessionLive then
        match handleMessage s msg clock with
        | Except.error _ => s
        | Except.ok s1 => s1
      else s
  | Event.transportError =>
      if s.sessionLive then
        disconnect { s with surfacedErrors := s.surfacedErrors + 1 }
      else s
  | Event.transportClose => if s.sessionLive then disconnect s else s
  | Event.disconnectReq => disconnect s

/-- States reachable from a freshly constructed service by any event trace. -/
inductive Reachable : ServiceState → Prop
  | init : Reachable initState
  | next {s : ServiceState} (e : Event) : Reachable s → Reachable (step s e)

/-- Submitting a sequence of decoded frames `(duration, clock-at-submission)`
to the scheduler in order; returns the assigned start times. -/
def runSchedule (s : ServiceState) : List (ℚ × ℚ) → List ℚ
  | [] => []
  | (d, c) :: rest =>
      (scheduleFrame s d c).2 :: runSchedule (scheduleFrame s d c).1 rest

/-! ## Base64 transport encoding: helper lemmas -/

/-- Induction along the 3-byte chunking used by the base64 encoder. -/
theorem chunk3_induction {α : Type} (P : List α → Prop) (h0 : P [])
    (h1 : ∀ a, P [a]) (h2 : ∀ a b, P [a, b])
    (h3 : ∀ a b c rest, P rest → P (a :: b :: c :: rest)) :
    ∀ l, P l := by
  have key : ∀ n (l : List α), l.length ≤ n → P l := by
    intro n
    induction n with
    | zero =>
        intro l hl
        cases l with
        | nil => exact h0
        | cons a t => simp at hl
    | succ n ih =>
        intro l hl
        match l with
        | [] => exact h0
        | [a] => exact h1 a
        | [a, b] => exact h2 a b
        | a :: b :: c :: rest =>
            refine h3 a b c rest (ih rest ?_)
            simp only [List.length_cons] at hl
            omega
  exact fun l => key l.length l le_rfl

theorem charToSextet_sextetToChar : ∀ n < 64, charToSextet (sextetToChar n) = some n := by
  decide

theorem sextetToChar_ne_pad : ∀ n < 64, sextetToChar n ≠ '=' := by
  decide

theorem sextetToChar_not_space : ∀ n < 64, isB64Space (sextetToChar n) = false := by
  decide

theorem encodeChunks_filter (l : List ℕ) (h : ∀ b ∈ l, b < 256) :
    (encodeChunks l).filter (fun c => !(isB64Space c)) = encodeChunks l := by
  rw [List.filter_eq_self]
  induction l using chunk3_induction with
  | h0 => simp [encodeChunks]
  | h1 a =>
      have ha : a < 256 := h a (by simp)
      intro c hc
      simp only [encodeChunks, List.mem_cons, List.mem_singleton, List.not_mem_nil,
        or_false] at hc
      rcases hc with rfl | rfl | rfl | rfl
      · simp [sextetToChar_not_space (a / 4) (by omega)]
      · simp [sextetToChar_not_space (a % 4 * 16) (by omega)]
      · decide
      · decide
  | h2 a b =>
      have ha : a < 256 := h a (by simp)
      have hb : b < 256 := h b (by simp)
      intro c hc
      simp only [encodeChunks, List.mem_cons, List.not_mem_nil, or_false] at hc
      rcases hc with rfl | rfl | rfl | rfl
      · simp [sextetToChar_not_space (a / 4) (by omega)]
      · simp [sextetToChar_not_space (a % 4 * 16 + b / 16) (by omega)]
      · simp [sextetToChar_not_space (b % 16 * 4) (by omega)]
      · decide
  | h3 a b c rest ih =>
      have ha : a < 256 := h a (by simp)
      have hb : b < 256 := h b (by simp)
      have hcv : c < 256 := h c (by simp)
      intro x hx
      simp only [encodeChunks, List.mem_cons] at hx
      rcases hx with rfl | rfl | rfl | rfl | hx
      · simp [sextetToChar_not_space (a / 4) (by omega)]
      · simp [sextetToChar_not_space (a % 4 * 16 + b / 16) (by omega)]
      · simp [sextetToChar_not_space (b % 16 * 4 + c / 64) (by omega)]
      · simp [sextetToChar_not_space (c % 64) (by omega)]
      · exact ih (fun y hy => h y (by simp [hy])) x hx

theorem encodeChunks_length_mod (l : List ℕ) : (encodeChunks l).length % 4 = 0 := by
  induction l using chunk3_induction with
  | h0 => simp [encodeChunks]
  | h1 a => simp [encodeChunks]
  | h2 a b => simp [encodeChunks]
  | h3 a b c rest ih => simp only [encodeChunks, List.length_cons]; omega

theorem encodeChunks_length_ge (l : List ℕ) (h : l ≠ []) :
    2 ≤ (encodeChunks l).length := by
  match l with
  | [a] => simp [encodeChunks]
  | [a, b] => simp [encodeChunks]
  | a :: b :: c :: rest => simp only [encodeChunks, List.length_cons]; omega

theorem dropLastEq_of_getLast_ne {s : List Char} {k : Char}
    (hs : s.getLast? = some k) (hk : k ≠ '=') : dropLastEq s = s := by
  simp [dropLastEq, hs, hk]

theorem dropLastEq_append (xs : List Char) {ys : List Char} (h : ys ≠ []) :
    dropLastEq (xs ++ ys) = xs ++ dropLastEq ys := by
  unfold dropLastEq
  rw [List.getLast?_append_of_ne_nil xs h]
  by_cases hc : ys.getLast? = some '='
  · rw [if_pos hc, if_pos hc, List.dropLast_append]
    simp [List.isEmpty_iff, h]
  · rw [if_neg hc, if_neg hc]

theorem dropLastEq_length (s : List Char) : s.length - 1 ≤ (dropLastEq s).length := by
  unfold dropLastEq
  by_cases hc : s.getLast? = some '='
  · rw [if_pos hc]; simp
  · rw [if_neg hc]; omega

theorem stripPad_append (xs : List Char) {ys : List Char} (h : 2 ≤ ys.length) :
    stripPad (xs ++ ys) = xs ++ stripPad ys := by
  have h1 : ys ≠ [] := by intro hy; subst hy; simp at h
  have h2 : dropLastEq ys ≠ [] := by
    have := dropLastEq_length ys
    intro hy
    rw [hy] at this
    simp at this
    omega
  unfold stripPad
  rw [dropLastEq_append xs h1, dropLastEq_append xs h2]

theorem stripPad_encodeChunks (l : List ℕ) (h : ∀ b ∈ l, b < 256) :
    stripPad (encodeChunks l) = encodeSextets l := by
  induction l using chunk3_induction with
  | h0 => rfl
  | h1 a => rfl
  | h2 a b =>
      have hb : b < 256 := h b (by simp)
      show stripPad [sextetToChar (a / 4), sextetToChar (a % 4 * 16 + b / 16),
        sextetToChar (b % 16 * 4), '='] = _
      have hne : sextetToChar (b % 16 * 4) ≠ '=' :=
        sextetToChar_ne_pad (b % 16 * 4) (by omega)
      have e1 : dropLastEq [sextetToChar (a / 4), sextetToChar (a % 4 * 16 + b / 16),
          sextetToChar (b % 16 * 4), '='] = [sextetToChar (a / 4),
          sextetToChar (a % 4 * 16 + b / 16), sextetToChar (b % 16 * 4)] := rfl
      have e2 : ([sextetToChar (a / 4), sextetToChar (a % 4 * 16 + b / 16),
          sextetToChar (b % 16 * 4)] : List Char).getLast? =
          some (sextetToChar (b % 16 * 4)) := rfl
      unfold stripPad
      rw [e1, dropLastEq_of_getLast_ne e2 hne]
      rfl
  | h3 a b c rest ih =>
      have hcv : c < 256 := h c (by simp)
      show stripPad ([sextetToChar (a / 4), sextetToChar (a % 4 * 16 + b / 16),
        sextetToChar (b % 16 * 4 + c / 64), sextetToChar (c % 64)] ++ encodeChunks rest) = _
      cases hr : rest with
      | nil =>
          have hne : sextetToChar (c % 64) ≠ '=' :=
            sextetToChar_ne_pad (c % 64) (by omega)
          have e2 : ([sextetToChar (a / 4), sextetToChar (a % 4 * 16 + b / 16),
              sextetToChar (b % 16 * 4 + c / 64), sextetToChar (c % 64)] :
              List Char).getLast? = some (sextetToChar (c % 64)) := rfl
          show stripPad [sextetToChar (a / 4), sextetToChar (a % 4 * 16 + b / 16),
            sextetToChar (b % 16 * 4 + c / 64), sextetToChar (c % 64)] = _
          unfold stripPad
          rw [dropLastEq_of_getLast_ne e2 hne, dropLastEq_of_getLast_ne e2 hne]
          rfl
      | cons r0 rtail =>
          rw [hr] at ih h
          rw [stripPad_append _ (encodeChunks_length_ge (r0 :: rtail) (by simp)),
            ih (fun y hy => h y (by simp only [List.mem_cons] at hy ⊢; tauto))]
          rfl

theorem decodeSextetChunks_encodeSextets (l : List ℕ) (h : ∀ b ∈ l, b < 256) :
    decodeSextetChunks (encodeSextets l) = some l := by
  induction l using chunk3_induction with
  | h0 => rfl
  | h1 a =>
      have ha : a < 256 := h a (by simp)
      have e0 := charToSextet_sextetToChar (a / 4) (by omega)
      have e1 := charToSextet_sextetToChar (a % 4 * 16) (by omega)
      have ev : a / 4 * 4 + a % 4 * 16 / 16 = a := by omega
      have ev2 : a / 4 * 4 + a % 4 = a := by omega
      show decodeSextetChunks [sextetToChar (a / 4), sextetToChar (a % 4 * 16)] = _
      simp [decodeSextetChunks, e0, e1, ev, ev2]
  | h2 a b =>
      have ha : a < 256 := h a (by simp)
      have hb : b < 256 := h b (by simp)
      have e0 := charToSextet_sextetToChar (a / 4) (by omega)
      have e1 := charToSextet_sextetToChar (a % 4 * 16 + b / 16) (by omega)
      have e2 := charToSextet_sextetToChar (b % 16 * 4) (by omega)
      have ev0 : a / 4 * 4 + (a % 4 * 16 + b / 16) / 16 = a := by omega
      have ev1 : (a % 4 * 16 + b / 16) % 16 * 16 + b % 16 * 4 / 4 = b := by omega
      have ev2 : (a % 4 * 16 + b / 16) % 16 * 16 + b % 16 = b := by omega
      show decodeSextetChunks [sextetToChar (a / 4), sextetToChar (a % 4 * 16 + b / 16),
        sextetToChar (b % 16 * 4)] = _
      simp [decodeSextetChunks, e0, e1, e2, ev0, ev1, ev2]
  | h3 a b c rest ih =>
      have ha : a < 256 := h a (by simp)
      have hb : b < 256 := h b (by simp)
      have hcv : c < 256 := h c (by simp)
      have e0 := charToSextet_sextetToChar (a / 4) (by omega)
      have e1 := charToSextet_sextetToChar (a % 4 * 16 + b / 16) (by omega)
      have e2 := charToSextet_sextetToChar (b % 16 * 4 + c / 64) (by omega)
      have e3 := charToSextet_sextetToChar (c % 64) (by omega)
      have ev0 : a / 4 * 4 + (a % 4 * 16 + b / 16) / 16 = a := by omega
      have ev1 : (a % 4 * 16 + b / 16) % 16 * 16 + (b % 16 * 4 + c / 64) / 4 = b := by
        omega
      have ev2 : (b % 16 * 4 + c / 64) % 4 * 64 + c % 64 = c := by omega
      have etl := ih (fun y hy => h y (by simp only [List.mem_cons] at hy ⊢; tauto))
      show decodeSextetChunks (sextetToChar (a / 4) :: sextetToChar (a % 4 * 16 + b / 16) ::
        sextetToChar (b % 16 * 4 + c / 64) :: sextetToChar (c % 64) ::
        encodeSextets rest) = _
      simp [decodeSextetChunks, e0, e1, e2, e3, etl, ev0, ev1, ev2]

theorem encodeSextets_length_mod (l : List ℕ) : (encodeSextets l).length % 4 ≠ 1 := by
  induction l using chunk3_induction with
  | h0 => simp [encodeSextets]
  | h1 a => simp [encodeSextets]
  | h2 a b => simp [encodeSextets]
  | h3 a b c rest ih => simp only [encodeSextets, List.length_cons]; omega

/-- Shared round-trip fact: `atob` inverts `btoa` on any byte list. -/
theorem atob_encodeChunks (l : List ℕ) (h : ∀ b ∈ l, b < 256) :
    atob (encodeChunks l) = some l := by
  simp only [atob, encodeChunks_filter l h]
  rw [if_pos (encodeChunks_length_mod l), stripPad_encodeChunks l h,
    if_neg (encodeSextets_length_mod l), decodeSextetChunks_encodeSextets l h]

/-! ## PCM frame codec: helper lemmas -/

theorem toInt16_mem_range (x : ℚ) : -32768 ≤ toInt16 x ∧ toInt16 x < 32768 := by
  unfold toInt16
  set t : ℤ := if 0 ≤ x then ⌊x⌋ else ⌈x⌉ with ht
  have h0 : 0 ≤ t % 65536 := Int.emod_nonneg t (by norm_num)
  have h1 : t % 65536 < 65536 := Int.emod_lt_of_pos t (by norm_num)
  by_cases hc : t % 65536 < 32768
  · rw [if_pos hc]; omega
  · rw [if_neg hc]; omega

theorem toInt16_of_small {t : ℤ} (h0 : -32768 ≤ t) (h1 : t < 32768) (x : ℚ)
    (hx : (if 0 ≤ x then ⌊x⌋ else ⌈x⌉) = t) : toInt16 x = t := by
  unfold toInt16
  rw [hx]
  by_cases hc : t % 65536 < 32768
  · rw [if_pos hc]; omega
  · rw [if_neg hc]; omega

/-- The bytes written by serializing an `Int16Array` are all below 256. -/
theorem int16ToBytesLE_lt (l : List ℤ) : ∀ b ∈ int16ToBytesLE l, b < 256 := by
  induction l with
  | nil => simp [int16ToBytesLE]
  | cons i rest ih =>
      intro b hb
      have h0 : 0 ≤ i % 65536 := Int.emod_nonneg i (by norm_num)
      have h1 : i % 65536 < 65536 := Int.emod_lt_of_pos i (by norm_num)
      simp only [int16ToBytesLE, List.mem_cons] at hb
      rcases hb with rfl | rfl | hb
      · omega
      · have : (i % 65536).toNat < 65536 := by omega
        omega
      · exact ih b hb

/-- Reading back the byte serialization of in-range 16-bit samples restores
them exactly. -/
theorem bytesToInt16LE_int16ToBytesLE (l : List ℤ)
    (h : ∀ i ∈ l, -32768 ≤ i ∧ i < 32768) :
    bytesToInt16LE (int16ToBytesLE l) = some l := by
  induction l with
  | nil => rfl
  | cons i rest ih =>
      have hi := h i (by simp)
      have h0 : 0 ≤ i % 65536 := Int.emod_nonneg i (by norm_num)
      have h1 : i % 65536 < 65536 := Int.emod_lt_of_pos i (by norm_num)
      have etl := ih (fun y hy => h y (by simp [hy]))
      show bytesToInt16LE ((i % 65536).toNat % 256 :: (i % 65536).toNat / 256 ::
        int16ToBytesLE rest) = _
      simp only [bytesToInt16LE, etl, Option.bind_eq_bind, Option.some_bind]
      have hv : (i % 65536).toNat % 256 + (i % 65536).toNat / 256 * 256 =
          (i % 65536).toNat := by omega
      rw [hv]
      have hval : (if (i % 65536).toNat < 32768 then (((i % 65536).toNat : ℕ) : ℤ)
          else (((i % 65536).toNat : ℕ) : ℤ) - 65536) = i := by
        by_cases hc : (i % 65536).toNat < 32768
        · rw [if_pos hc]; omega
        · rw [if_neg hc]; omega
      rw [hval]

/-- Quantization bound for one sample strictly below full scale: truncation
toward zero loses at most 1/32768. -/
theorem createPcmSample_quant {x : ℚ} (h0 : -1 ≤ x) (h1 : x < 1) :
    |((createPcmSample x : ℤ) : ℚ) / 32768 - x| ≤ 1 / 32768 := by
  have hcl : clamp1 x = x := by
    unfold clamp1
    rw [min_eq_right h1.le, max_eq_right h0]
  have hy0 : (-32768 : ℚ) ≤ x * 32768 := by nlinarith
  have hy1 : x * 32768 < 32768 := by nlinarith
  set t : ℤ := if 0 ≤ x * 32768 then ⌊x * 32768⌋ else ⌈x * 32768⌉ with ht
  have htb : -32768 ≤ t ∧ t < 32768 := by
    by_cases hp : 0 ≤ x * 32768
    · rw [ht, if_pos hp]
      refine ⟨?_, Int.floor_lt.mpr (by exact_mod_cast hy1)⟩
      have : (0 : ℤ) ≤ ⌊x * 32768⌋ := Int.floor_nonneg.mpr hp
      omega
    · rw [ht, if_neg hp]
      constructor
      · have hcle : x * 32768 ≤ ((⌈x * 32768⌉ : ℤ) : ℚ) := Int.le_ceil (x * 32768)
        exact_mod_cast hy0.trans hcle
      · have : ⌈x * 32768⌉ ≤ (0 : ℤ) :=
          Int.ceil_le.mpr (by exact_mod_cast le_of_lt (not_le.mp hp))
        omega
  have hs : createPcmSample x = t := by
    unfold createPcmSample
    rw [hcl]
    exact toInt16_of_small htb.1 htb.2 (x * 32768) ht.symm
  have key : |((t : ℤ) : ℚ) - x * 32768| ≤ 1 := by
    rw [abs_le]
    by_cases hp : 0 ≤ x * 32768
    · rw [ht, if_pos hp]
      constructor
      · linarith [Int.lt_floor_add_one (x * 32768)]
      · linarith [Int.floor_le (x * 32768)]
    · rw [ht, if_neg hp]
      constructor
      · linarith [Int.le_ceil (x * 32768)]
      · linarith [Int.ceil_lt_add_one (x * 32768)]
  rw [hs]
  have hre : ((t : ℤ) : ℚ) / 32768 - x = (((t : ℤ) : ℚ) - x * 32768) / 32768 := by
    ring
  rw [hre, abs_div, abs_of_pos (by norm_num : (0 : ℚ) < 32768)]
  exact (div_le_div_iff_of_pos_right (by norm_num : (0 : ℚ) < 32768)).mpr key

/-- Range of every encoded sample. -/
theorem createPcmSample_range (x : ℚ) :
    -32768 ≤ createPcmSample x ∧ createPcmSample x < 32768 :=
  toInt16_mem_range (clamp1 x * 32768)

/-! ## Resampler: helper lemmas -/

theorem downsampleLoop_length (buffer : List ℚ) (r : ℚ) :
    ∀ fuel i ob, (downsampleLoop buffer r fuel i ob).length = fuel := by
  intro fuel
  induction fuel with
  | zero => intro i ob; rfl
  | succ n ih => intro i ob; simp [downsampleLoop, ih]

theorem downsampleLoop_getD (buffer : List ℚ) (r : ℚ) :
    ∀ fuel i0 j, j < fuel →
      (downsampleLoop buffer r fuel i0 ((jsRound ((i0 : ℚ) * r)).toNat)).getD j 0 =
        (let w := windowSlice buffer ((jsRound (((i0 + j : ℕ) : ℚ) * r)).toNat)
            ((jsRound (((i0 + j + 1 : ℕ) : ℚ) * r)).toNat)
         if 0 < w.length then w.sum / (w.length : ℚ) else 0) := by
  intro fuel
  induction fuel with
  | zero => intro i0 j hj; omega
  | succ n ih =>
      intro i0 j hj
      cases j with
      | zero =>
          simp only [downsampleLoop, List.getD_cons_zero, Nat.add_zero]
      | succ j =>
          have hstep : (downsampleLoop buffer r (n + 1) i0
              ((jsRound ((i0 : ℚ) * r)).toNat)).getD (j + 1) 0 =
              (downsampleLoop buffer r n (i0 + 1)
              ((jsRound (((i0 + 1 : ℕ) : ℚ) * r)).toNat)).getD j 0 := by
            simp only [downsampleLoop, List.getD_cons_succ]
          rw [hstep, ih (i0 + 1) j (by omega),
            show i0 + 1 + j = i0 + (j + 1) from by omega]

theorem jsRound_zero_mul (r : ℚ) : (jsRound (((0 : ℕ) : ℚ) * r)).toNat = 0 := by
  norm_num [jsRound]

/-! ## Playback scheduler: helper lemmas -/

theorem runSchedule_clock : ∀ (frames : List (ℚ × ℚ)) (s : ServiceState) (i : ℕ),
    i < frames.length →
    (frames.getD i (0, 0)).2 ≤ (runSchedule s frames).getD i 0 := by
  intro frames
  induction frames with
  | nil => intro s i hi; simp at hi
  | cons p rest ih =>
      intro s i hi
      obtain ⟨d, c⟩ := p
      match i with
      | 0 =>
          simp only [runSchedule, List.getD_cons_zero, scheduleFrame]
          exact le_max_right _ _
      | i + 1 =>
          simp only [runSchedule, List.getD_cons_succ]
          exact ih _ i (by simp only [List.length_cons] at hi; omega)

theorem runSchedule_order : ∀ (frames : List (ℚ × ℚ)) (s : ServiceState) (i : ℕ),
    i + 1 < frames.length →
    (runSchedule s frames).getD i 0 + (frames.getD i (0, 0)).1 ≤
      (runSchedule s frames).getD (i + 1) 0 := by
  intro frames
  induction frames with
  | nil => intro s i hi; simp at hi
  | cons p rest ih =>
      intro s i hi
      obtain ⟨d, c⟩ := p
      match i with
      | 0 =>
          have hr : 1 ≤ rest.length := by
            simp only [List.length_cons] at hi; omega
          match rest with
          | (d1, c1) :: rest2 =>
            simp only [runSchedule, List.getD_cons_zero, List.getD_cons_succ,
              scheduleFrame]
            exact le_max_left _ _
      | i + 1 =>
          simp only [runSchedule, List.getD_cons_succ]
          exact ih _ i (by simp only [List.length_cons] at hi; omega)

/-! ## Session controller: helper lemmas -/

/-- Fields of the state that stand for open device resources. -/
def Released (s : ServiceState) : Prop :=
  s.inputCtxOpen = false ∧ s.outputCtxOpen = false ∧
  s.inputSourceAttached = false ∧ s.processorAttached = false

theorem audioStage_ok_flags {s s1 : ServiceState} {msg : ServerMessage} {clock : ℚ}
    (h : audioStage s msg clock = Except.ok s1) :
    s1.connectionState = s.connectionState ∧ s1.inputCtxOpen = s.inputCtxOpen ∧
    s1.outputCtxOpen = s.outputCtxOpen ∧
    s1.inputSourceAttached = s.inputSourceAttached ∧
    s1.processorAttached = s.processorAttached ∧ s1.sessionLive = s.sessionLive := by
  unfold audioStage at h
  split at h
  · cases h; exact ⟨rfl, rfl, rfl, rfl, rfl, rfl⟩
  · split at h
    · split at h
      · cases h
      · split at h
        · cases h
        · cases h
          simp [scheduleFrame]
    · cases h; exact ⟨rfl, rfl, rfl, rfl, rfl, rfl⟩

theorem handleMessage_ok_flags {s s1 : ServiceState} {msg : ServerMessage} {clock : ℚ}
    (h : handleMessage s msg clock = Except.ok s1) :
    s1.connectionState = s.connectionState ∧ s1.inputCtxOpen = s.inputCtxOpen ∧
    s1.outputCtxOpen = s.outputCtxOpen ∧
    s1.inputSourceAttached = s.inputSourceAttached ∧
    s1.processorAttached = s.processorAttached ∧ s1.sessionLive = s.sessionLive := by
  unfold handleMessage at h
  split at h
  · cases h
  · rename_i s2 h2
    have hfl := audioStage_ok_flags h2
    split at h
    · cases h
      simpa [stopAllAudio] using hfl
    · cases h
      exact hfl

theorem step_preserves_released {s : ServiceState}
    (hs : s.connectionState = ConnectionState.disconnected → Released s) (e : Event) :
    (step s e).connectionState = ConnectionState.disconnected → Released (step s e) := by
  cases e with
  | connectReq o =>
      simp only [step]
      unfold connect
      split
      · exact hs
      · cases o <;> intro hcs <;> simp at hcs
  | transportOpen =>
      simp only [step]
      split
      · intro hcs; simp at hcs
      · exact hs
  | transportMessage msg clock =>
      simp only [step]
      split
      · split
        · exact hs
        · rename_i s1 h1
          have hfl := handleMessage_ok_flags h1
          intro hcs
          have hrel := hs (hfl.1.symm.trans hcs)
          exact ⟨hfl.2.1.trans hrel.1, hfl.2.2.1.trans hrel.2.1,
            hfl.2.2.2.1.trans hrel.2.2.1, hfl.2.2.2.2.1.trans hrel.2.2.2⟩
      · exact hs
  | transportError =>
      simp only [step]
      split
      · unfold disconnect
        split
        · rename_i hd
          intro hcs
          have hrel := hs (by simpa using hd)
          simpa [Released] using hrel
        · intro hcs
          exact ⟨rfl, rfl, rfl, rfl⟩
      · exact hs
  | transportClose =>
      simp only [step]
      split
      · unfold disconnect
        split
        · exact hs
        · intro hcs
          exact ⟨rfl, rfl, rfl, rfl⟩
      · exact hs
  | disconnectReq =>
      simp only [step]
      unfold disconnect
      split
      · exact hs
      · intro hcs
        exact ⟨rfl, rfl, rfl, rfl⟩

/-- Invariant: every reachable DISCONNECTED state holds no device resources. -/
theorem reachable_released {s : ServiceState} (h : Reachable s) :
    s.connectionState = ConnectionState.disconnected → Released s := by
  induction h with
  | init => intro; exact ⟨rfl, rfl, rfl, rfl⟩
  | next e hr ih => exact step_preserves_released ih e

/-! ## Claims -/

/-- Claim C5: when the input rate equals the target rate the resampler
returns the input unchanged, and when the input rate is below the target
rate (upsampling) it also passes the block through unchanged rather than
raising an error. -/
theorem resampler_passthrough (buffer : List ℚ) (inputRate targetRate : ℚ)
    (hlt : inputRate < targetRate) :
    downsampleBuffer buffer inputRate inputRate = buffer ∧
    downsampleBuffer buffer inputRate targetRate = buffer := by
  constructor
  · simp [downsampleBuffer]
  · unfold downsampleBuffer
    rw [if_neg (ne_of_lt hlt), if_pos hlt]

theorem resampler_passthrough_witness :
    downsampleBuffer [1, 2] 16000 16000 = [1, 2] ∧
    downsampleBuffer [1, 2] 16000 24000 = [1, 2] :=
  resampler_passthrough [1, 2] 16000 24000 (by norm_num)

/-- Claim C4: for input rate strictly above target rate, the output length
is round(length / (R/T)) and each output entry is the average of the input
samples in the window [round(i*(R/T)), round((i+1)*(R/T))) clipped to the
input's bounds, or zero when that window is empty; the computation is a
pure function of its inputs. -/
theorem resampler_window_average (buffer : List ℚ) (inputRate targetRate : ℚ)
    (hT : 0 < targetRate) (hRT : targetRate < inputRate) :
    (downsampleBuffer buffer inputRate targetRate).length =
      (jsRound ((buffer.length : ℚ) / (inputRate / targetRate))).toNat ∧
    ∀ i, i < (downsampleBuffer buffer inputRate targetRate).length →
      (downsampleBuffer buffer inputRate targetRate).getD i 0 =
        (let w := windowSlice buffer
            ((jsRound ((i : ℚ) * (inputRate / targetRate))).toNat)
            ((jsRound (((i + 1 : ℕ) : ℚ) * (inputRate / targetRate))).toNat)
         if 0 < w.length then w.sum / (w.length : ℚ) else 0) := by
  have hunf : downsampleBuffer buffer inputRate targetRate =
      downsampleLoop buffer (inputRate / targetRate)
        ((jsRound ((buffer.length : ℚ) / (inputRate / targetRate))).toNat) 0 0 := by
    unfold downsampleBuffer
    rw [if_neg (ne_of_gt hRT), if_neg (not_lt_of_gt hRT)]
  rw [hunf]
  refine ⟨downsampleLoop_length _ _ _ _ _, ?_⟩
  intro i hi
  rw [downsampleLoop_length] at hi
  have hloop := downsampleLoop_getD buffer (inputRate / targetRate)
    ((jsRound ((buffer.length : ℚ) / (inputRate / targetRate))).toNat) 0 i hi
  simpa only [jsRound_zero_mul, Nat.zero_add] using hloop

theorem resampler_window_average_witness :
    (downsampleBuffer [1, 2, 3, 4, 5, 6] 48000 16000).length =
      (jsRound (((6 : ℕ) : ℚ) / (48000 / 16000))).toNat :=
  (resampler_window_average [1, 2, 3, 4, 5, 6] 48000 16000 (by norm_num)
    (by norm_num)).1

/-- Claim C10: decoding the transport text encoding of any byte array
yields exactly the original bytes, with the decoded length equal to the
original length. -/
theorem base64_transport_roundtrip (bytes : List ℕ) (h : ∀ b ∈ bytes, b < 256) :
    base64ToBytes (bytesToBase64 bytes) = some bytes ∧
    ∃ out, base64ToBytes (bytesToBase64 bytes) = some out ∧
      out.length = bytes.length := by
  have hrt := atob_encodeChunks bytes h
  exact ⟨hrt, bytes, hrt, rfl⟩

theorem base64_transport_roundtrip_witness :
    base64ToBytes (bytesToBase64 [0, 128, 255, 17]) = some [0, 128, 255, 17] :=
  (base64_transport_roundtrip [0, 128, 255, 17] (by decide)).1

/-- Claim C3 counterexample: the sample value 1 lies in the claimed domain
[-1, 1], but encoding it scales to 32768, which wraps to -32768 in the
16-bit store, so the round trip returns -1: an absolute error of 2, far
above the claimed 1/32768 bound. -/
theorem pcm_roundtrip_fails_at_one :
    Option.bind (base64ToBytes (createPcmBlob [1]).data) decodeAudioData =
      some [-1] ∧
    ¬ |(-1 : ℚ) - 1| ≤ 1 / 32768 := by
  constructor
  · have h1 : createPcmSample 1 = -32768 := by
      have hcl : clamp1 1 = 1 := by norm_num [clamp1]
      unfold createPcmSample
      rw [hcl]
      unfold toInt16
      norm_num
    have h2 : (createPcmBlob [1]).data =
        bytesToBase64 (int16ToBytesLE [-32768]) := by
      unfold createPcmBlob
      rw [show ([1] : List ℚ).map createPcmSample = [-32768] from by simp [h1]]
    rw [h2, show base64ToBytes (bytesToBase64 (int16ToBytesLE [-32768])) =
      some (int16ToBytesLE [-32768]) from atob_encodeChunks _ (int16ToBytesLE_lt _)]
    show decodeAudioData (int16ToBytesLE [-32768]) = some [-1]
    rw [show int16ToBytesLE [-32768] = [0, 128] from by decide]
    unfold decodeAudioData
    rw [show bytesToInt16LE [0, 128] = some [-32768] from by decide]
    norm_num
  · norm_num

/-- Claim C3 (amended): for every sample block with all values in [-1, 1),
encoding to the 16-bit wire blob and decoding it back reproduces every
value within 1/32768 absolute error; the bound fails only at full scale 1,
where the encoder wraps to -1. -/
theorem pcm_roundtrip_quantization_bound (data : List ℚ)
    (h : ∀ x ∈ data, -1 ≤ x ∧ x < 1) :
    ∃ out, Option.bind (base64ToBytes (createPcmBlob data).data) decodeAudioData =
        some out ∧
      out.length = data.length ∧
      ∀ i, i < data.length → |out.getD i 0 - data.getD i 0| ≤ 1 / 32768 := by
  refine ⟨data.map (fun x => ((createPcmSample x : ℤ) : ℚ) / 32768), ?_, by simp, ?_⟩
  · have h64 : base64ToBytes (createPcmBlob data).data =
        some (int16ToBytesLE (data.map createPcmSample)) :=
      atob_encodeChunks _ (int16ToBytesLE_lt _)
    have hrange : ∀ i ∈ data.map createPcmSample, -32768 ≤ i ∧ i < 32768 := by
      intro i hi
      obtain ⟨x, hx, rfl⟩ := List.mem_map.mp hi
      exact createPcmSample_range x
    rw [h64]
    show decodeAudioData _ = _
    unfold decodeAudioData
    rw [bytesToInt16LE_int16ToBytesLE _ hrange]
    simp [List.map_map, Function.comp]
  · intro i hi
    have hlen : i < (data.map
        (fun x => ((createPcmSample x : ℤ) : ℚ) / 32768)).length := by
      simpa using hi
    rw [List.getD_eq_getElem _ _ hlen, List.getD_eq_getElem _ _ hi,
      List.getElem_map]
    exact createPcmSample_quant (h _ (List.getElem_mem hi)).1
      (h _ (List.getElem_mem hi)).2

theorem pcm_roundtrip_quantization_bound_witness :
    ∃ out, Option.bind (base64ToBytes (createPcmBlob [1/2, -1]).data)
        decodeAudioData = some out ∧
      out.length = ([1/2, -1] : List ℚ).length ∧
      ∀ i, i < ([1/2, -1] : List ℚ).length →
        |out.getD i 0 - ([1/2, -1] : List ℚ).getD i 0| ≤ 1 / 32768 :=
  pcm_roundtrip_quantization_bound [1/2, -1] (by norm_num)

/-- Claim C1: each submitted frame's assigned start time equals
max(nextStartTime, clock) at submission, after which the cursor becomes
start + duration; consequently over any submission sequence the i-th start
time is at least the submission clock, and at least the previous start time
plus the previous duration, so frames neither overlap nor schedule in the
past. -/
theorem playback_scheduler_ordering (s : ServiceState) (frames : List (ℚ × ℚ)) :
    (∀ d c, (scheduleFrame s d c).2 = max s.nextStartTime c ∧
      (scheduleFrame s d c).1.nextStartTime = (scheduleFrame s d c).2 + d) ∧
    (∀ i, i < frames.length →
      (frames.getD i (0, 0)).2 ≤ (runSchedule s frames).getD i 0) ∧
    (∀ i, i + 1 < frames.length →
      (runSchedule s frames).getD i 0 + (frames.getD i (0, 0)).1 ≤
        (runSchedule s frames).getD (i + 1) 0) :=
  ⟨fun _ _ => ⟨rfl, rfl⟩, fun i hi => runSchedule_clock frames s i hi,
    fun i hi => runSchedule_order frames s i hi⟩

theorem playback_scheduler_ordering_witness :
    ((([(1, 2), (3, 0)] : List (ℚ × ℚ)).getD 0 (0, 0)).2 ≤
      (runSchedule initState [(1, 2), (3, 0)]).getD 0 0) ∧
    ((runSchedule initState [(1, 2), (3, 0)]).getD 0 0 +
        (([(1, 2), (3, 0)] : List (ℚ × ℚ)).getD 0 (0, 0)).1 ≤
      (runSchedule initState [(1, 2), (3, 0)]).getD 1 0) :=
  ⟨(playback_scheduler_ordering initState [(1, 2), (3, 0)]).2.1 0 (by norm_num),
   (playback_scheduler_ordering initState [(1, 2), (3, 0)]).2.2 0 (by norm_num)⟩

/-- Claim C2: an interruption message forcibly stops every in-flight unit
(stopping is total, the try/catch making it a no-op on finished units),
clears the in-flight set, and resets the cursor to the origin, so the next
submitted frame's start time equals the submission clock, independent of
the pre-interruption cursor value. -/
theorem interruption_resets_cursor (s : ServiceState) (msg : ServerMessage)
    (clock : ℚ) (hint : msg.interrupted = true) (haud : msg.audioData = none) :
    ∃ s1, handleMessage s msg clock = Except.ok s1 ∧
      s1.audioSources = [] ∧ s1.nextStartTime = 0 ∧
      ∀ d c, 0 ≤ c → (scheduleFrame s1 d c).2 = c := by
  refine ⟨{ stopAllAudio s with nextStartTime := 0 }, ?_, rfl, rfl, ?_⟩
  · unfold handleMessage audioStage
    rw [haud]
    simp [hint]
  · intro d c hc
    show max (0 : ℚ) c = c
    exact max_eq_right hc

theorem interruption_resets_cursor_witness :
    ∃ s1, handleMessage
        { initState with nextStartTime := 55, audioSources := [⟨0, 55⟩] }
        ⟨none, true⟩ 7 = Except.ok s1 ∧
      s1.audioSources = [] ∧ s1.nextStartTime = 0 ∧
      ∀ d c, 0 ≤ c → (scheduleFrame s1 d c).2 = c :=
  interruption_resets_cursor
    { initState with nextStartTime := 55, audioSources := [⟨0, 55⟩] }
    ⟨none, true⟩ 7 rfl rfl

/-- Claim C6: a malformed (non-decodable) base64 audio payload makes the
handler reject the frame with a codec error; only that frame is dropped and
the controller state -- connection state, playback cursor, in-flight set,
all resources -- is unchanged, with no session-terminating transition. -/
theorem malformed_frame_dropped (s : ServiceState) (msg : ServerMessage)
    (clock : ℚ) (b64 : List Char) (haud : msg.audioData = some b64)
    (hbad : base64ToBytes b64 = none) (hctx : s.outputCtxOpen = true) :
    handleMessage s msg clock = Except.error "InvalidCharacterError" ∧
    step s (Event.transportMessage msg clock) = s := by
  have hh : handleMessage s msg clock = Except.error "InvalidCharacterError" := by
    unfold handleMessage audioStage
    rw [haud]
    simp [hctx, hbad]
  refine ⟨hh, ?_⟩
  simp only [step]
  split
  · rw [hh]
  · rfl

theorem malformed_frame_dropped_witness :
    handleMessage { initState with outputCtxOpen := true }
        ⟨some "!!!!".toList, false⟩ 3 = Except.error "InvalidCharacterError" ∧
    step { initState with outputCtxOpen := true }
        (Event.transportMessage ⟨some "!!!!".toList, false⟩ 3) =
      { initState with outputCtxOpen := true } :=
  malformed_frame_dropped { initState with outputCtxOpen := true }
    ⟨some "!!!!".toList, false⟩ 3 "!!!!".toList rfl (by decide) rfl

/-- Claim C7 counterexample: after a connect attempt in which microphone
access is denied, the reachable state is ERROR while the output audio
context is still open, so device resources are not confined to
CONNECTING/CONNECTED and the transition into ERROR released nothing. -/
theorem resources_survive_error_transition :
    ¬ (∀ s, Reachable s → s.outputCtxOpen = true →
        s.connectionState = ConnectionState.connecting ∨
        s.connectionState = ConnectionState.connected) := by
  intro hclaim
  have hr : Reachable (step initState (Event.connectReq ConnectOutcome.micDenied)) :=
    Reachable.next _ Reachable.init
  have hres := hclaim _ hr (by decide)
  revert hres
  decide

/-- Claim C7 (amended): in every reachable state, DISCONNECTED implies that
all capture and playback resources (both audio contexts, the capture source
and processor nodes) are released; a failed connect, however, transitions
into ERROR with the already-created contexts still open. -/
theorem released_when_disconnected (s : ServiceState) (h : Reachable s)
    (hd : s.connectionState = ConnectionState.disconnected) :
    s.inputCtxOpen = false ∧ s.outputCtxOpen = false ∧
    s.inputSourceAttached = false ∧ s.processorAttached = false :=
  reachable_released h hd

theorem released_when_disconnected_witness :
    initState.inputCtxOpen = false ∧ initState.outputCtxOpen = false ∧
    initState.inputSourceAttached = false ∧ initState.processorAttached = false :=
  released_when_disconnected initState Reachable.init rfl

/-- Claim C8 counterexample: a mid-session transport fault runs the
disconnect path and ends in DISCONNECTED -- not in ERROR as the claim
states for every unrecoverable transport error. -/
theorem transport_fault_not_error :
    (step (step (step initState (Event.connectReq ConnectOutcome.ok))
        Event.transportOpen) Event.transportError).connectionState =
      ConnectionState.disconnected ∧
    ¬ (step (step (step initState (Event.connectReq ConnectOutcome.ok))
        Event.transportOpen) Event.transportError).connectionState =
      ConnectionState.error := by
  constructor
  · decide
  · decide

/-- Claim C8 (amended): transport faults (handshake failure while
CONNECTING or a mid-session fault) surface the error and route through the
disconnect path, releasing all device resources, with resulting state
DISCONNECTED; device/permission failures inside connect surface the error
and set ERROR directly, without the disconnect path, leaving the contexts
created so far open. -/
theorem error_propagation_paths (s : ServiceState) :
    (s.sessionLive = true → s.connectionState ≠ ConnectionState.disconnected →
      step s Event.transportError =
        disconnect { s with surfacedErrors := s.surfacedErrors + 1 } ∧
      (step s Event.transportError).connectionState =
        ConnectionState.disconnected ∧
      Released (step s Event.transportError) ∧
      (step s Event.transportError).surfacedErrors = s.surfacedErrors + 1) ∧
    (s.connectionState ≠ ConnectionState.connected →
      (connect s ConnectOutcome.micDenied).connectionState =
        ConnectionState.error ∧
      (connect s ConnectOutcome.micDenied).surfacedErrors =
        s.surfacedErrors + 1 ∧
      (connect s ConnectOutcome.micDenied).inputCtxOpen = true ∧
      (connect s ConnectOutcome.micDenied).outputCtxOpen = true) := by
  constructor
  · intro hlive hnd
    have hstep : step s Event.transportError =
        disconnect { s with surfacedErrors := s.surfacedErrors + 1 } := by
      simp only [step, hlive, if_true]
    have hdis : disconnect { s with surfacedErrors := s.surfacedErrors + 1 } =
        { s with audioSources := [], processorAttached := false,
                 inputSourceAttached := false, inputCtxOpen := false,
                 outputCtxOpen := false, sessionLive := false,
                 connectionState := ConnectionState.disconnected,
                 surfacedErrors := s.surfacedErrors + 1 } := by
      unfold disconnect
      rw [if_neg]
      exact hnd
    rw [hstep, hdis]
    exact ⟨rfl, rfl, ⟨rfl, rfl, rfl, rfl⟩, rfl⟩
  · intro hnc
    unfold connect
    rw [if_neg hnc]
    exact ⟨rfl, rfl, rfl, rfl⟩

theorem error_propagation_paths_witness :
    ((step (connect initState ConnectOutcome.ok)
        Event.transportError).connectionState = ConnectionState.disconnected ∧
      Released (step (connect initState ConnectOutcome.ok) Event.transportError)) ∧
    ((connect initState ConnectOutcome.micDenied).connectionState =
        ConnectionState.error ∧
      (connect initState ConnectOutcome.micDenied).outputCtxOpen = true) :=
  ⟨⟨((error_propagation_paths (connect initState ConnectOutcome.ok)).1
      (by decide) (by decide)).2.1,
    ((error_propagation_paths (connect initState ConnectOutcome.ok)).1
      (by decide) (by decide)).2.2.1⟩,
   ⟨((error_propagation_paths initState).2 (by decide)).1,
    ((error_propagation_paths initState).2 (by decide)).2.2.2⟩⟩

/-- Claim C9 counterexample: from the ERROR state reached by a failed
connect, a new connect request proceeds straight to CONNECTING -- no
explicit disconnect/reset is required, so ERROR is not terminal for
connect. -/
theorem connect_from_error_proceeds :
    (step initState (Event.connectReq ConnectOutcome.micDenied)).connectionState =
      ConnectionState.error ∧
    (step (step initState (Event.connectReq ConnectOutcome.micDenied))
        (Event.connectReq ConnectOutcome.ok)).connectionState =
      ConnectionState.connecting := by
  constructor
  · decide
  · decide

/-- Claim C9 (amended): a connect request while CONNECTED is a no-op (the
state is returned unchanged, so no device calls are made); from ERROR, a
connect request proceeds directly to a new CONNECTING attempt. -/
theorem connect_lifecycle (s : ServiceState) :
    (s.connectionState = ConnectionState.connected →
      ∀ o, step s (Event.connectReq o) = s) ∧
    (s.connectionState = ConnectionState.error →
      (step s (Event.connectReq ConnectOutcome.ok)).connectionState =
        ConnectionState.connecting) := by
  constructor
  · intro hc o
    simp only [step]
    unfold connect
    rw [if_pos hc]
  · intro he
    simp only [step]
    unfold connect
    rw [if_neg (by rw [he]; intro hcontra; cases hcontra)]

theorem connect_lifecycle_witness :
    (step { initState with connectionState := ConnectionState.connected }
        (Event.connectReq ConnectOutcome.ok) =
      { initState with connectionState := ConnectionState.connected }) ∧
    (step { initState with connectionState := ConnectionState.error }
        (Event.connectReq ConnectOutcome.ok)).connectionState =
      ConnectionState.connecting :=
  ⟨(connect_lifecycle
      { initState with connectionState := ConnectionState.connected }).1
        rfl ConnectOutcome.ok,
   (connect_lifecycle
      { initState with connectionState := ConnectionState.error }).2 rfl⟩
